import Mathlib

/-!
Verification development for the treebench binary-search-tree engine
(src/src/bstree.cc, harness in src/src/treebench.cc).

The C++ code is a pointer structure with mutation, so we use a shallow
embedding with an explicit heap: addresses are natural numbers, the heap
is a function from addresses to optional `Node` records, and every raw
pointer dereference in the source is modelled as a heap lookup that can
fail.  Runtime faults (dereferencing a null pointer, touching memory that
is not an allocated node) and fuel exhaustion of pointer chases are made
explicit with an `Except` result.  Machine `int` values are modelled as
unbounded `Int` (the benchmark never approaches overflow and no claim is
about overflow).

Each operation of `BSTree` is translated line by line from bstree.cc;
an algebraic tree (`ATree`) is extracted from the heap only to state
specification-level properties (BST ordering, in-order traversal,
reachable-node count).
-/

/-- Modelled runtime faults: `nullPtr` is a dereference of a null pointer,
`wildPtr` a dereference of an address that holds no allocated node
(dangling or wild pointer), `fuel` is exhaustion of the fuel that bounds
pointer chases (only reachable on cyclic heaps). -/
inductive Err where
  | nullPtr : Err
  | wildPtr : Err
  | fuel : Err
deriving DecidableEq, Repr

/-- Modelled from the spec: `common.h` (the `S_T` key typedef) is not under
src/; per the spec a key is an ordered, comparable value, taken as `Int`. -/
abbrev S_T := Int

/-- One `hedger::Node` cell: key, owned payload pointer `data` (modelled as
an optional value), child pointers and the non-owning parent pointer,
pointers being optional addresses. -/
structure Node where
  key : S_T
  data : Option Int
  left : Option Nat
  right : Option Nat
  parent : Option Nat
deriving DecidableEq, Repr

/-- The mutable store: a map from addresses to allocated nodes. -/
def Heap := Nat → Option Node

/-- Write the node `n` at address `a`. -/
def hset (h : Heap) (a : Nat) (n : Node) : Heap :=
  fun x => if x = a then some n else h x

/-- Free the node at address `a` (operator delete). -/
def hfree (h : Heap) (a : Nat) : Heap :=
  fun x => if x = a then none else h x

/-- The `BSTree` object state: member fields `root_`, `size_`, `maxSize_`,
`nodeTot_` from bstree.cc, plus the heap holding the nodes and a fresh
address counter standing for the allocator. -/
structure BSTree where
  heap : Heap
  root_ : Option Nat
  size_ : Int
  maxSize_ : Int
  nodeTot_ : Int
  nextAddr : Nat

/-- `BSTree::BSTree()`: empty store, null root, zeroed counters. -/
def BSTree.new : BSTree :=
  { heap := fun _ => none, root_ := none, size_ := 0, maxSize_ := 0,
    nodeTot_ := 0, nextAddr := 0 }

/-- Modelled from the spec: bstree.h (the `Node` constructor used by
`new hedger::Node(key)`) is not under src/; per spec §4.1 a Node is a
"plain data holder; no behavior beyond construction with a key and
optional payload", so a freshly constructed node holds the key and has
no payload, no children and no parent. -/
def Node.fresh (key : S_T) : Node :=
  { key := key, data := none, left := none, right := none, parent := none }

/-- Fuel bound used for pointer chases: every allocated address is below
`nextAddr`, so any acyclic chase visits at most `nextAddr` nodes. -/
def BSTree.fuel (t : BSTree) : Nat :=
  t.nextAddr + 1

/-- `BSTree::ChangeSize` (bstree.cc:262-267): adds `delta` to `size_`, but
only when the result would be positive. -/
def BSTree.ChangeSize (t : BSTree) (delta : Int) : BSTree :=
  if t.size_ + delta > 0 then { t with size_ := t.size_ + delta } else t

/-- The descent loop of `BSTree::Add` (bstree.cc:83-92): follow left/right
links from `current` until null, remembering the last visited node
(`candidateParent`) and counting comparisons in `currentDepth`. -/
def descendAdd (h : Heap) (key : S_T) :
    Nat → Option Nat → Option Nat → Nat → Except Err (Option Nat × Nat)
  | 0, _, _, _ => .error .fuel
  | _ + 1, none, cand, d => .ok (cand, d)
  | fuelN + 1, some a, _, d =>
    match h a with
    | none => .error .wildPtr
    | some n =>
      if key < n.key then descendAdd h key fuelN n.left (some a) (d + 1)
      else descendAdd h key fuelN n.right (some a) (d + 1)

/-- `BSTree::Add` (bstree.cc:67-116).  `depthNull` models whether the
`int *depth` out-parameter is a null pointer; the returned `Option Int`
is the value written through it (none when nothing was written).  Returns
the new state and the address of the allocated node. -/
def BSTree.Add (t : BSTree) (key : S_T) (depthNull : Bool) :
    Except Err (BSTree × Nat × Option Int) :=
  let addr := t.nextAddr
  let h0 := hset t.heap addr (Node.fresh key)
  match t.root_ with
  | none =>
    -- first node: root_ = node; nodeTot_++; *depth = 1 (no null check)
    if depthNull then .error .nullPtr
    else
      .ok ({ t with
              heap := h0, nextAddr := addr + 1, root_ := some addr,
              nodeTot_ := t.nodeTot_ + 1 }, addr, some 1)
  | some r =>
    match descendAdd h0 key (t.nextAddr + 1) (some r) none 0 with
    | .error e => .error e
    | .ok (cand, d0) =>
      -- currentDepth++; if (depth) *depth = currentDepth;
      let dep : Option Int := if depthNull then none else some (d0 + 1)
      match cand with
      | none => .error .nullPtr       -- node->parent->key with null parent
      | some p =>
        match h0 addr with
        | none => .error .wildPtr
        | some nd =>
          -- node->parent = candidateParent;
          let h1 := hset h0 addr { nd with parent := some p }
          match h1 p with
          | none => .error .wildPtr
          | some pn =>
            -- if (node->key < node->parent->key) parent->left = node else right
            let h2 := if key < pn.key then hset h1 p { pn with left := some addr }
                      else hset h1 p { pn with right := some addr }
            match h2 addr with
            | none => .error .wildPtr
            | some nd2 =>
              -- node->left = nullptr; node->right = nullptr;
              let h3 := hset h2 addr { nd2 with left := none, right := none }
              let t2 := BSTree.ChangeSize
                { t with heap := h3, nextAddr := addr + 1 } 1
              .ok ({ t2 with nodeTot_ := t2.nodeTot_ + 1 }, addr, dep)

/-- `BSTree::FindRecurse` (bstree.cc:303-319): equal key returns the node,
`node->key > key` recurses left, `node->key < key` recurses right, a null
node (or the dead final else branch) yields null. -/
def BSTree.FindRecurse (h : Heap) (key : S_T) :
    Nat → Option Nat → Except Err (Option Nat)
  | 0, _ => .error .fuel
  | _ + 1, none => .ok none
  | fuelN + 1, some a =>
    match h a with
    | none => .error .wildPtr
    | some n =>
      if n.key = key then .ok (some a)
      else if key < n.key then BSTree.FindRecurse h key fuelN n.left
      else if n.key < key then BSTree.FindRecurse h key fuelN n.right
      else .ok none

/-- `BSTree::Find` (bstree.cc:249-253). -/
def BSTree.Find (t : BSTree) (key : S_T) : Except Err (Option Nat) :=
  BSTree.FindRecurse t.heap key t.fuel t.root_

/-- `BSTree::FindMin` (bstree.cc:190-197): follow left links; note the
loop condition `current->left` dereferences `current` without a null
check, so a null argument faults. -/
def BSTree.FindMin (h : Heap) : Nat → Option Nat → Except Err Nat
  | 0, _ => .error .fuel
  | _ + 1, none => .error .nullPtr
  | fuelN + 1, some a =>
    match h a with
    | none => .error .wildPtr
    | some n =>
      match n.left with
      | none => .ok a
      | some l => BSTree.FindMin h fuelN (some l)

/-- `BSTree::DeleteNode` (bstree.cc:140-183).  Returns the updated heap and
the returned `Node *`.  In the zero/one-child cases the source reads
`node->parent->left` without checking `node->parent` for null, frees the
node, and never touches the successor's parent field. -/
def BSTree.DeleteNode (h : Heap) :
    Nat → Option Nat → S_T → Except Err (Heap × Option Nat)
  | 0, _, _ => .error .fuel
  | _ + 1, none, _ => .ok (h, none)
  | fuelN + 1, some a, key =>
    match h a with
    | none => .error .wildPtr
    | some n =>
      if key < n.key then
        match BSTree.DeleteNode h fuelN n.left key with
        | .error e => .error e
        | .ok (h1, res) =>
          match h1 a with
          | none => .error .wildPtr
          | some n1 => .ok (hset h1 a { n1 with left := res }, some a)
      else if n.key < key then
        match BSTree.DeleteNode h fuelN n.right key with
        | .error e => .error e
        | .ok (h1, res) =>
          match h1 a with
          | none => .error .wildPtr
          | some n1 => .ok (hset h1 a { n1 with right := res }, some a)
      else
        match n.left with
        | none =>
          -- Case 0/1: no left child; successor is the right child.
          let succ := n.right
          match n.parent with
          | none => .error .nullPtr   -- node->parent->left, parent is null
          | some p =>
            match h p with
            | none => .error .wildPtr
            | some pn =>
              let h1 := if pn.left = some a then hset h p { pn with left := succ }
                        else if pn.right = some a then hset h p { pn with right := succ }
                        else h
              .ok (hfree h1 a, succ)
        | some _ =>
          match n.right with
          | none =>
            -- Case 0/1 mirrored: successor is the left child.
            let succ := n.left
            match n.parent with
            | none => .error .nullPtr
            | some p =>
              match h p with
              | none => .error .wildPtr
              | some pn =>
                let h1 := if pn.left = some a then hset h p { pn with left := succ }
                          else if pn.right = some a then hset h p { pn with right := succ }
                          else h
                .ok (hfree h1 a, succ)
          | some rc =>
            -- Case 2: two children; copy key/data from minimum of right
            -- subtree, then recursively delete the donor from the right.
            match BSTree.FindMin h fuelN (some rc) with
            | .error e => .error e
            | .ok sa =>
              match h sa with
              | none => .error .wildPtr
              | some sn =>
                let h1 := hset h a { n with key := sn.key, data := sn.data }
                match h1 sa with
                | none => .error .wildPtr
                | some sn1 =>
                  let h2 := hset h1 sa { sn1 with data := none }
                  match h2 a with
                  | none => .error .wildPtr
                  | some n2 =>
                    match BSTree.DeleteNode h2 fuelN n2.right sn.key with
                    | .error e => .error e
                    | .ok (h3, res) =>
                      match h3 a with
                      | none => .error .wildPtr
                      | some n3 => .ok (hset h3 a { n3 with right := res }, some a)

/-- `BSTree::DeleteKey` (bstree.cc:122-131): find the node, call
`DeleteNode` on it when found.  The returned node pointer is discarded,
`root_` is never updated and `ChangeSize` is never called. -/
def BSTree.DeleteKey (t : BSTree) (key : S_T) : Except Err (BSTree × Bool) :=
  match t.Find key with
  | .error e => .error e
  | .ok none => .ok (t, false)
  | .ok (some a) =>
    match BSTree.DeleteNode t.heap t.fuel (some a) key with
    | .error e => .error e
    | .ok (h1, _) => .ok ({ t with heap := h1 }, true)

/-- `BSTree::MaxDepthRecurse` (bstree.cc:224-241): threading the
`*max_depth` high-water mark; a childless node records its depth, an
inner node recurses into its existing children. -/
def BSTree.MaxDepthRecurse (h : Heap) :
    Nat → Nat → Int → Int → Except Err Int
  | 0, _, _, _ => .error .fuel
  | fuelN + 1, a, depth, maxd =>
    match h a with
    | none => .error .wildPtr
    | some n =>
      match n.left, n.right with
      | none, none => .ok (if depth > maxd then depth else maxd)
      | _, _ =>
        match (match n.left with
               | some l => BSTree.MaxDepthRecurse h fuelN l (depth + 1) maxd
               | none => .ok maxd) with
        | .error e => .error e
        | .ok m1 =>
          match n.right with
          | some r => BSTree.MaxDepthRecurse h fuelN r (depth + 1) m1
          | none => .ok m1

/-- `BSTree::MaxDepth` (bstree.cc:206-217): 0 for the empty tree. -/
def BSTree.MaxDepth (t : BSTree) : Except Err Int :=
  match t.root_ with
  | none => .ok 0
  | some r => BSTree.MaxDepthRecurse t.heap t.fuel r 0 0

/-- The record printed by `BSTree::Print` (bstree.cc:273-296) for one node
(address, key, parent/left/right pointers); the recursion in Print visits
the node, then its left subtree, then its right subtree. -/
def BSTree.PrintSeq (h : Heap) :
    Nat → Option Nat → Except Err (List (Nat × S_T))
  | 0, _ => .error .fuel
  | _ + 1, none => .ok []
  | fuelN + 1, some a =>
    match h a with
    | none => .error .wildPtr
    | some n =>
      match BSTree.PrintSeq h fuelN n.left with
      | .error e => .error e
      | .ok l =>
        match BSTree.PrintSeq h fuelN n.right with
        | .error e => .error e
        | .ok r => .ok ((a, n.key) :: (l ++ r))

/-- The pre-order traversal produced by `BSTree::Print` from the root. -/
def BSTree.Traverse (t : BSTree) : Except Err (List (Nat × S_T)) :=
  BSTree.PrintSeq t.heap t.fuel t.root_

/-- `BSTree::DeleteRecursive` (bstree.cc:48-57): the teardown walk; note
the guard `if (node && node->data)` — a node whose `data` is null is not
visited at all.  Returns the heap after the frees and the list of freed
node addresses in order of `delete node` calls. -/
def BSTree.DeleteRecursive (h : Heap) :
    Nat → Option Nat → Except Err (Heap × List Nat)
  | 0, _ => .error .fuel
  | _ + 1, none => .ok (h, [])
  | fuelN + 1, some a =>
    match h a with
    | none => .error .wildPtr
    | some n =>
      match n.data with
      | none => .ok (h, [])
      | some _ =>
        match BSTree.DeleteRecursive h fuelN n.left with
        | .error e => .error e
        | .ok (h1, l1) =>
          match BSTree.DeleteRecursive h1 fuelN n.right with
          | .error e => .error e
          | .ok (h2, l2) =>
            match h2 a with
            | none => .error .wildPtr
            | some n2 =>
              -- delete node->data; node->data = nullptr; delete node;
              .ok (hfree (hset h2 a { n2 with data := none }) a,
                   l1 ++ l2 ++ [a])

/-- `BSTree::~BSTree` (bstree.cc:39-43): `DeleteRecursive(root_)`; we keep
the list of freed addresses as the observable. -/
def BSTree.Destroy (t : BSTree) : Except Err (List Nat) :=
  match BSTree.DeleteRecursive t.heap t.fuel t.root_ with
  | .error e => .error e
  | .ok (_, l) => .ok l

/-- The insertion loop of the harness (treebench.cc:142-144): `Add` each
key in order, with a valid depth pointer as in `ScapegoatTree::Add`'s
contract; the node pointer results are discarded. -/
def BSTree.AddAll (t : BSTree) : List S_T → Except Err BSTree
  | [] => .ok t
  | k :: ks =>
    match t.Add k false with
    | .error e => .error e
    | .ok (t1, _, _) => BSTree.AddAll t1 ks

/-- Specification-level algebraic binary tree of keys, used only to state
properties of the pointer structure (the source has no such type). -/
inductive ATree where
  | leaf : ATree
  | node : ATree → S_T → ATree → ATree
deriving DecidableEq, Repr

/-- Number of nodes of an algebraic tree. -/
def ATree.size : ATree → Nat
  | .leaf => 0
  | .node l _ r => l.size + r.size + 1

/-- In-order key sequence of an algebraic tree. -/
def ATree.inorder : ATree → List S_T
  | .leaf => []
  | .node l k r => l.inorder ++ k :: r.inorder

/-- Extract the algebraic tree of the pointer structure rooted at the given
address, together with the pre-order list of the addresses it occupies;
`none` when the fuel runs out or a pointer is dangling. -/
def extract (h : Heap) : Nat → Option Nat → Option (ATree × List Nat)
  | _, none => some (.leaf, [])
  | 0, some _ => none
  | fuelN + 1, some a =>
    match h a with
    | none => none
    | some n =>
      match extract h fuelN n.left, extract h fuelN n.right with
      | some (l, al), some (r, ar) => some (.node l n.key r, a :: (al ++ ar))
      | _, _ => none

/-- The shape effect of `BSTree::Add`'s descend-and-attach on the extracted
tree: strictly smaller keys go left, everything else (including an equal
key) goes right, since the source compares only with `<`
(bstree.cc:85 and 102). -/
def insertA (key : S_T) : ATree → ATree
  | .leaf => .node .leaf key .leaf
  | .node l k r =>
    if key < k then .node (insertA key l) k r else .node l k (insertA key r)

/-- The BST ordering invariant of spec §3: all keys of the left subtree
strictly below the node key, all keys of the right subtree strictly
above, recursively. -/
def ATree.isBST : ATree → Bool
  | .leaf => true
  | .node l k r =>
    l.isBST && r.isBST && l.inorder.all (fun x => decide (x < k))
      && r.inorder.all (fun x => decide (k < x))

/-- Number of nodes reachable from `root_` (spec §3 invariant 5). -/
def countReachable (t : BSTree) : Option Nat :=
  (extract t.heap t.fuel t.root_).map (fun p => p.2.length)

/-- Well-formedness tying a tree state to its extracted shape: extraction
succeeds, the occupied addresses are pairwise distinct, and every occupied
address lies below the allocation counter. -/
def WF (t : BSTree) (T : ATree) (as : List Nat) : Prop :=
  extract t.heap t.fuel t.root_ = some (T, as) ∧ as.Nodup ∧
    ∀ a ∈ as, a < t.nextAddr

/-- A single-node store whose node carries a null `data` payload (the
payload is optional per spec §3). -/
def heapNP : Heap := hset (fun _ => none) 0 (Node.fresh 5)

/-- Tree state over `heapNP`. -/
def treeNP : BSTree :=
  { heap := heapNP, root_ := some 0, size_ := 1, maxSize_ := 0,
    nodeTot_ := 1, nextAddr := 1 }

/-- A two-node store: a root with payload 7 whose left child carries a
null payload. -/
def heapNP2 : Heap :=
  hset (hset (fun _ => none) 0
      { key := 5, data := some 7, left := some 1, right := none, parent := none })
    1 { key := 3, data := none, left := none, right := none, parent := some 0 }

/-- Tree state over `heapNP2`. -/
def treeNP2 : BSTree :=
  { heap := heapNP2, root_ := some 0, size_ := 2, maxSize_ := 0,
    nodeTot_ := 2, nextAddr := 2 }

/-- Concrete three-node tree built by inserting keys 2, 1, 3; used to
instantiate universally quantified theorems. -/
def treeW : BSTree := (BSTree.AddAll BSTree.new [2,1,3]).toOption.getD BSTree.new

/-- The extracted shape of `treeW`. -/
def treeWT : ATree := .node (.node .leaf 1 .leaf) 2 (.node .leaf 3 .leaf)

theorem hset_same (h : Heap) (a : Nat) (n : Node) : hset h a n a = some n := by
  simp [hset]

theorem hset_other (h : Heap) (a : Nat) (n : Node) (x : Nat) (hx : x ≠ a) :
    hset h a n x = h x := by
  simp [hset, hx]

theorem extract_none (h : Heap) (F : Nat) : extract h F none = some (.leaf, []) := by
  cases F <;> rfl

theorem extract_succ_some (h : Heap) (F : Nat) (a : Nat) :
    extract h (F + 1) (some a) =
      match h a with
      | none => none
      | some n =>
        match extract h F n.left, extract h F n.right with
        | some (l, al), some (r, ar) => some (.node l n.key r, a :: (al ++ ar))
        | _, _ => none := rfl

theorem extract_some_inv {h : Heap} {F : Nat} {r : Nat} {T : ATree} {as : List Nat}
    (hx : extract h F (some r) = some (T, as)) :
    ∃ Fm n l al rt ar, F = Fm + 1 ∧ h r = some n ∧
      extract h Fm n.left = some (l, al) ∧ extract h Fm n.right = some (rt, ar) ∧
      T = .node l n.key rt ∧ as = r :: (al ++ ar) := by
  cases F with
  | zero => exact absurd hx (by simp [extract])
  | succ Fm =>
    rw [extract_succ_some] at hx
    split at hx
    · exact absurd hx (by simp)
    · rename_i n hh
      split at hx
      · rename_i l al rt ar hl hr
        simp only [Option.some.injEq, Prod.mk.injEq] at hx
        exact ⟨Fm, n, l, al, rt, ar, rfl, hh, hl, hr, hx.1.symm, hx.2.symm⟩
      · exact absurd hx (by simp)

theorem extract_mono {h : Heap} : ∀ (F G : Nat), F ≤ G →
    ∀ (r : Option Nat) (x : ATree × List Nat),
    extract h F r = some x → extract h G r = some x := by
  intro F
  induction F with
  | zero =>
    intro G _ r x hx
    cases r with
    | none => rw [extract_none] at hx; rw [extract_none]; exact hx
    | some a => exact absurd hx (by simp [extract])
  | succ Fm ih =>
    intro G hFG r x hx
    cases r with
    | none => rw [extract_none] at hx; rw [extract_none]; exact hx
    | some a =>
      cases G with
      | zero => omega
      | succ Gm =>
        obtain ⟨T, as⟩ := x
        obtain ⟨Fm', n, l, al, rt, ar, hF, hh, hl, hr, hT, has⟩ := extract_some_inv hx
        have hFm : Fm' = Fm := by omega
        subst hFm
        subst hT
        subst has
        have hl2 := ih Gm (by omega) n.left (l, al) hl
        have hr2 := ih Gm (by omega) n.right (rt, ar) hr
        rw [extract_succ_some]
        simp only [hh, hl2, hr2]

theorem extract_agree {h h' : Heap} : ∀ (F : Nat) (r : Option Nat) (T : ATree) (as : List Nat),
    extract h F r = some (T, as) → (∀ a ∈ as, h' a = h a) →
    extract h' F r = some (T, as) := by
  intro F
  induction F with
  | zero =>
    intro r T as hx _
    cases r with
    | none => rw [extract_none] at hx; rw [extract_none]; exact hx
    | some a => exact absurd hx (by simp [extract])
  | succ Fm ih =>
    intro r T as hx hag
    cases r with
    | none => rw [extract_none] at hx; rw [extract_none]; exact hx
    | some a =>
      obtain ⟨Fm', n, l, al, rt, ar, hF, hh, hl, hr, hT, has⟩ := extract_some_inv hx
      have hFm : Fm' = Fm := by omega
      subst hFm
      subst hT
      subst has
      have ha' : h' a = h a := hag a (List.mem_cons_self a _)
      have hagl : ∀ x ∈ al, h' x = h x := fun x hx2 =>
        hag x (List.mem_cons_of_mem _ (List.mem_append_left _ hx2))
      have hagr : ∀ x ∈ ar, h' x = h x := fun x hx2 =>
        hag x (List.mem_cons_of_mem _ (List.mem_append_right _ hx2))
      have hl2 := ih n.left l al hl hagl
      have hr2 := ih n.right rt ar hr hagr
      rw [extract_succ_some]
      simp only [ha', hh, hl2, hr2]

theorem extract_length {h : Heap} : ∀ (F : Nat) (r : Option Nat) (T : ATree) (as : List Nat),
    extract h F r = some (T, as) → as.length = T.size := by
  intro F
  induction F with
  | zero =>
    intro r T as hx
    cases r with
    | none =>
      rw [extract_none] at hx
      simp only [Option.some.injEq, Prod.mk.injEq] at hx
      rw [← hx.1, ← hx.2]; rfl
    | some a => exact absurd hx (by simp [extract])
  | succ Fm ih =>
    intro r T as hx
    cases r with
    | none =>
      rw [extract_none] at hx
      simp only [Option.some.injEq, Prod.mk.injEq] at hx
      rw [← hx.1, ← hx.2]; rfl
    | some a =>
      obtain ⟨Fm', n, l, al, rt, ar, hF, hh, hl, hr, hT, has⟩ := extract_some_inv hx
      have hFm : Fm' = Fm := by omega
      subst hFm
      subst hT
      subst has
      have h1 := ih n.left l al hl
      have h2 := ih n.right rt ar hr
      simp only [List.length_cons, List.length_append, ATree.size, h1, h2]

/-! ### Algebraic insertion lemmas -/

theorem inorder_insertA (key : S_T) : ∀ T : ATree,
    (insertA key T).inorder.Perm (key :: T.inorder) := by
  intro T
  induction T with
  | leaf => simp [insertA, ATree.inorder]
  | node l k r ihl ihr =>
    by_cases hk : key < k
    · simp only [insertA, if_pos hk, ATree.inorder]
      exact ihl.append_right (k :: r.inorder)
    · simp only [insertA, if_neg hk, ATree.inorder]
      have h2 : (l.inorder ++ k :: (insertA key r).inorder).Perm
          (l.inorder ++ k :: key :: r.inorder) :=
        (ihr.cons k).append_left l.inorder
      have h3 : (l.inorder ++ k :: key :: r.inorder).Perm
          (key :: (l.inorder ++ k :: r.inorder)) := by
        have h4 : ((l.inorder ++ [k]) ++ key :: r.inorder).Perm
            (key :: ((l.inorder ++ [k]) ++ r.inorder)) := List.perm_middle
        simpa [List.append_assoc] using h4
      exact h2.trans h3

theorem mem_inorder_insertA {key x : S_T} {T : ATree} :
    x ∈ (insertA key T).inorder ↔ x = key ∨ x ∈ T.inorder := by
  have h1 : x ∈ (insertA key T).inorder ↔ x ∈ key :: T.inorder :=
    (inorder_insertA key T).mem_iff
  simpa using h1

theorem isBST_insertA (key : S_T) : ∀ T : ATree, T.isBST = true →
    key ∉ T.inorder → (insertA key T).isBST = true := by
  intro T
  induction T with
  | leaf => intro _ _; rfl
  | node l k r ihl ihr =>
    intro hb hmem
    simp only [ATree.isBST, Bool.and_eq_true, List.all_eq_true, decide_eq_true_eq] at hb
    obtain ⟨⟨⟨hbl, hbr⟩, hall⟩, har⟩ := hb
    simp only [ATree.inorder, List.mem_append, List.mem_cons] at hmem
    push_neg at hmem
    obtain ⟨hml, hmk, hmr⟩ := hmem
    by_cases hk : key < k
    · simp only [insertA, if_pos hk, ATree.isBST, Bool.and_eq_true, List.all_eq_true,
        decide_eq_true_eq]
      refine ⟨⟨⟨ihl hbl hml, hbr⟩, ?_⟩, har⟩
      intro x hx
      rcases mem_inorder_insertA.mp hx with rfl | hx2
      · exact hk
      · exact hall x hx2
    · have hkk : k < key := by
        rcases lt_trichotomy key k with hlt | heq | hgt
        · exact absurd hlt hk
        · exact absurd heq hmk
        · exact hgt
      simp only [insertA, if_neg hk, ATree.isBST, Bool.and_eq_true, List.all_eq_true,
        decide_eq_true_eq]
      refine ⟨⟨⟨hbl, ihr hbr hmr⟩, hall⟩, ?_⟩
      intro x hx
      rcases mem_inorder_insertA.mp hx with rfl | hx2
      · exact hkk
      · exact har x hx2

theorem chain_of_isBST : ∀ T : ATree, T.isBST = true →
    List.Chain' (fun a b : S_T => a < b) T.inorder := by
  intro T
  induction T with
  | leaf => intro _; simp [ATree.inorder]
  | node l k r ihl ihr =>
    intro hb
    simp only [ATree.isBST, Bool.and_eq_true, List.all_eq_true, decide_eq_true_eq] at hb
    obtain ⟨⟨⟨hbl, hbr⟩, hall⟩, har⟩ := hb
    simp only [ATree.inorder]
    rw [List.chain'_append]
    refine ⟨ihl hbl, ?_, ?_⟩
    · rw [List.chain'_cons']
      exact ⟨fun y hy => har y (List.mem_of_mem_head? hy), ihr hbr⟩
    · intro x hx y hy
      have hx2 : x ∈ l.inorder := List.mem_of_mem_getLast? hx
      have hy2 : k = y := by simpa using hy
      subst hy2
      exact hall x hx2

/-! ### Nodup bookkeeping -/

theorem nodup_parts {r : Nat} {al ar : List Nat} (h : (r :: (al ++ ar)).Nodup) :
    al.Nodup ∧ ar.Nodup ∧ r ∉ al ∧ r ∉ ar ∧ ∀ x ∈ al, x ∉ ar := by
  rw [List.nodup_cons, List.nodup_append] at h
  obtain ⟨hr, hal, har, hdisj⟩ := h
  rw [List.mem_append] at hr
  push_neg at hr
  exact ⟨hal, har, hr.1, hr.2, fun x hx => hdisj hx⟩

theorem descendAdd_succ_none (h : Heap) (key : S_T) (F : Nat) (cand : Option Nat) (d : Nat) :
    descendAdd h key (F + 1) none cand d = .ok (cand, d) := rfl

theorem descendAdd_succ_some (h : Heap) (key : S_T) (F : Nat) (a : Nat) (cand : Option Nat) (d : Nat) :
    descendAdd h key (F + 1) (some a) cand d =
      match h a with
      | none => .error .wildPtr
      | some n =>
        if key < n.key then descendAdd h key F n.left (some a) (d + 1)
        else descendAdd h key F n.right (some a) (d + 1) := rfl

/-! ### The attach simulation for Add's descent loop -/

theorem descendAdd_attach (key : S_T) (fresh : Nat) :
    ∀ (T : ATree) (F : Nat) (h : Heap) (r : Nat) (as : List Nat)
      (cand : Option Nat) (d : Nat) (fuelN : Nat),
    extract h F (some r) = some (T, as) →
    as.Nodup → fresh ∉ as → T.size < fuelN →
    ∃ p pn dres,
      descendAdd h key fuelN (some r) cand d = .ok (some p, dres) ∧
      p ∈ as ∧ h p = some pn ∧
      ∀ h' : Heap,
        h' fresh = some { key := key, data := none, left := none, right := none,
                          parent := some p } →
        h' p = some (if key < pn.key then { pn with left := some fresh }
                     else { pn with right := some fresh }) →
        (∀ x, x ≠ fresh → x ≠ p → h' x = h x) →
        ∃ as', extract h' (F + 1) (some r) = some (insertA key T, as') ∧
          as'.Perm (fresh :: as) := by
  intro T
  induction T with
  | leaf =>
    intro F h r as cand d fuelN hx _ _ _
    obtain ⟨Fm, n, l, al, rt, ar, hF, hh, hl, hr, hT, has⟩ := extract_some_inv hx
    exact absurd hT (by simp)
  | node l k rt ihl ihr =>
    intro F h r as cand d fuelN hx hnd hfr hsz
    obtain ⟨Fm, n, l', al, rt', ar, hF, hh, hl, hr, hT, has⟩ := extract_some_inv hx
    subst hF
    injection hT with hTl hTk hTr
    subst hTl
    subst hTr
    subst hTk
    subst has
    obtain ⟨hndl, hndr, hrl, hrr, hdisj⟩ := nodup_parts hnd
    have hfr_r : fresh ≠ r := fun hc => hfr (hc ▸ List.mem_cons_self r _)
    have hfal : fresh ∉ al := fun hc =>
      hfr (List.mem_cons_of_mem _ (List.mem_append_left _ hc))
    have hfar : fresh ∉ ar := fun hc =>
      hfr (List.mem_cons_of_mem _ (List.mem_append_right _ hc))
    cases fuelN with
    | zero =>
      exfalso
      simp only [ATree.size] at hsz
      omega
    | succ fz =>
      rw [descendAdd_succ_some]
      simp only [hh]
      by_cases hk : key < n.key
      · -- descend goes left
        rw [if_pos hk]
        cases hnl : n.left with
        | none =>
          -- left subtree is empty: attach here, p = r
          rw [hnl] at hl
          rw [extract_none] at hl
          simp only [Option.some.injEq, Prod.mk.injEq] at hl
          obtain ⟨hleq, haleq⟩ := hl
          subst hleq
          subst haleq
          cases fz with
          | zero =>
            exfalso
            simp only [ATree.size] at hsz
            omega
          | succ fz2 =>
            refine ⟨r, n, d + 1, descendAdd_succ_none h key fz2 (some r) (d + 1),
              List.mem_cons_self r _, hh, ?_⟩
            intro h' hfresh hp hframe
            refine ⟨r :: ([fresh] ++ ar), ?_, ?_⟩
            · have hxfr : extract h' (Fm + 1) (some fresh) =
                  some (.node .leaf key .leaf, [fresh]) := by
                rw [extract_succ_some, hfresh]
                simp [extract_none]
              have hxrt : extract h' (Fm + 1) n.right = some (rt, ar) := by
                have hag : extract h' Fm n.right = some (rt, ar) :=
                  extract_agree Fm n.right rt ar hr (fun x hxa =>
                    hframe x (fun hc => hfar (hc ▸ hxa)) (fun hc => hrr (hc ▸ hxa)))
                exact extract_mono Fm (Fm + 1) (by omega) n.right (rt, ar) hag
              rw [extract_succ_some]
              simp only [hp, if_pos hk, hxfr, hxrt]
              simp [insertA, hk]
            · simp only [List.singleton_append, List.nil_append]
              exact List.Perm.swap fresh r ar
        | some lc =>
          -- recurse into the left child
          rw [hnl] at hl
          have hszl : l.size < fz := by
            simp only [ATree.size] at hsz
            omega
          obtain ⟨p, pn, dres, hdesc, hpmem, hppn, hcont⟩ :=
            ihl Fm h lc al (some r) (d + 1) fz hl hndl hfal hszl
          refine ⟨p, pn, dres, hdesc,
            List.mem_cons_of_mem _ (List.mem_append_left _ hpmem), hppn, ?_⟩
          intro h' hfresh hp hframe
          obtain ⟨al', hxl', hperml⟩ := hcont h' hfresh hp hframe
          have hrp : r ≠ p := fun hc => hrl (hc ▸ hpmem)
          refine ⟨r :: (al' ++ ar), ?_, ?_⟩
          · have hhr' : h' r = some n := by
              rw [hframe r (fun hc => hfr_r hc.symm) hrp, hh]
            have hxrt : extract h' (Fm + 1) n.right = some (rt, ar) := by
              have hag : extract h' Fm n.right = some (rt, ar) :=
                extract_agree Fm n.right rt ar hr (fun x hxa =>
                  hframe x (fun hc => hfar (hc ▸ hxa))
                    (fun hc => hdisj p hpmem (hc ▸ hxa)))
              exact extract_mono Fm (Fm + 1) (by omega) n.right (rt, ar) hag
            have hxl2 : extract h' (Fm + 1) n.left = some (insertA key l, al') := by
              rw [hnl]
              exact hxl'
            rw [extract_succ_some]
            simp only [hhr', hxl2, hxrt]
            simp [insertA, hk]
          · have h1 : (al' ++ ar).Perm ((fresh :: al) ++ ar) := hperml.append_right ar
            have h2 : (r :: (al' ++ ar)).Perm (r :: (fresh :: (al ++ ar))) := h1.cons r
            exact h2.trans (List.Perm.swap fresh r (al ++ ar))
      · -- descend goes right
        rw [if_neg hk]
        cases hnr : n.right with
        | none =>
          rw [hnr] at hr
          rw [extract_none] at hr
          simp only [Option.some.injEq, Prod.mk.injEq] at hr
          obtain ⟨hrteq, hareq⟩ := hr
          subst hrteq
          subst hareq
          cases fz with
          | zero =>
            exfalso
            simp only [ATree.size] at hsz
            omega
          | succ fz2 =>
            refine ⟨r, n, d + 1, descendAdd_succ_none h key fz2 (some r) (d + 1),
              List.mem_cons_self r _, hh, ?_⟩
            intro h' hfresh hp hframe
            refine ⟨r :: (al ++ [fresh]), ?_, ?_⟩
            · have hxfr : extract h' (Fm + 1) (some fresh) =
                  some (.node .leaf key .leaf, [fresh]) := by
                rw [extract_succ_some, hfresh]
                simp [extract_none]
              have hxlt : extract h' (Fm + 1) n.left = some (l, al) := by
                have hag : extract h' Fm n.left = some (l, al) :=
                  extract_agree Fm n.left l al hl (fun x hxa =>
                    hframe x (fun hc => hfal (hc ▸ hxa)) (fun hc => hrl (hc ▸ hxa)))
                exact extract_mono Fm (Fm + 1) (by omega) n.left (l, al) hag
              rw [extract_succ_some]
              simp only [hp, if_neg hk, hxfr, hxlt]
              simp [insertA, hk]
            · simp only [List.append_nil]
              have h2 : (al ++ [fresh]).Perm (fresh :: al) := by
                simp
              have h3 : (r :: (al ++ [fresh])).Perm (r :: fresh :: al) := h2.cons r
              exact h3.trans (List.Perm.swap fresh r al)
        | some rc =>
          rw [hnr] at hr
          have hszr : rt.size < fz := by
            simp only [ATree.size] at hsz
            omega
          obtain ⟨p, pn, dres, hdesc, hpmem, hppn, hcont⟩ :=
            ihr Fm h rc ar (some r) (d + 1) fz hr hndr hfar hszr
          refine ⟨p, pn, dres, hdesc,
            List.mem_cons_of_mem _ (List.mem_append_right _ hpmem), hppn, ?_⟩
          intro h' hfresh hp hframe
          obtain ⟨ar', hxr', hpermr⟩ := hcont h' hfresh hp hframe
          have hrp : r ≠ p := fun hc => hrr (hc ▸ hpmem)
          refine ⟨r :: (al ++ ar'), ?_, ?_⟩
          · have hhr' : h' r = some n := by
              rw [hframe r (fun hc => hfr_r hc.symm) hrp, hh]
            have hxlt : extract h' (Fm + 1) n.left = some (l, al) := by
              have hag : extract h' Fm n.left = some (l, al) :=
                extract_agree Fm n.left l al hl (fun x hxa =>
                  hframe x (fun hc => hfal (hc ▸ hxa))
                    (fun hc => hdisj x hxa (hc.symm ▸ hpmem)))
              exact extract_mono Fm (Fm + 1) (by omega) n.left (l, al) hag
            have hxr2 : extract h' (Fm + 1) n.right = some (insertA key rt, ar') := by
              rw [hnr]
              exact hxr'
            rw [extract_succ_some]
            simp only [hhr', hxlt, hxr2]
            simp [insertA, hk]
          · have h1 : (al ++ ar').Perm (al ++ fresh :: ar) := hpermr.append_left al
            have h2 : (r :: (al ++ ar')).Perm (r :: (al ++ fresh :: ar)) := h1.cons r
            refine h2.trans ?_
            have h3 : (al ++ fresh :: ar).Perm (fresh :: (al ++ ar)) := List.perm_middle
            exact (h3.cons r).trans (List.Perm.swap fresh r (al ++ ar))

theorem length_le_of_bound {as : List Nat} {N : Nat} (hnd : as.Nodup)
    (hb : ∀ a ∈ as, a < N) : as.length ≤ N := by
  have h1 : as.toFinset.card = as.length := List.toFinset_card_of_nodup hnd
  have h2 : as.toFinset ⊆ Finset.range N := by
    intro x hx
    rw [List.mem_toFinset] at hx
    rw [Finset.mem_range]
    exact hb x hx
  have h3 := Finset.card_le_card h2
  rw [Finset.card_range] at h3
  omega

theorem ChangeSize_heap (t : BSTree) (d : Int) : (t.ChangeSize d).heap = t.heap := by
  unfold BSTree.ChangeSize
  split <;> rfl

theorem ChangeSize_root (t : BSTree) (d : Int) : (t.ChangeSize d).root_ = t.root_ := by
  unfold BSTree.ChangeSize
  split <;> rfl

theorem ChangeSize_nextAddr (t : BSTree) (d : Int) :
    (t.ChangeSize d).nextAddr = t.nextAddr := by
  unfold BSTree.ChangeSize
  split <;> rfl

theorem Add_WF {t : BSTree} {T : ATree} {as : List Nat} (key : S_T) (hwf : WF t T as) :
    ∃ t' aN d, t.Add key false = .ok (t', aN, d) ∧ ∃ as', WF t' (insertA key T) as' := by
  obtain ⟨hx, hnd, hbnd⟩ := hwf
  cases hroot : t.root_ with
  | none =>
    rw [hroot, extract_none] at hx
    simp only [Option.some.injEq, Prod.mk.injEq] at hx
    obtain ⟨hT, -⟩ := hx
    subst hT
    refine ⟨{ t with
      heap := hset t.heap t.nextAddr (Node.fresh key),
      nextAddr := t.nextAddr + 1, root_ := some t.nextAddr,
      nodeTot_ := t.nodeTot_ + 1 }, t.nextAddr, some 1, ?_, ?_⟩
    · simp [BSTree.Add, hroot]
    · refine ⟨[t.nextAddr], ?_, by simp, by simp⟩
      show extract (hset t.heap t.nextAddr (Node.fresh key)) (t.nextAddr + 1 + 1)
        (some t.nextAddr) = some (insertA key ATree.leaf, [t.nextAddr])
      rw [extract_succ_some, hset_same]
      simp [Node.fresh, extract_none, insertA]
  | some r =>
    rw [hroot] at hx
    have hfr : t.nextAddr ∉ as := fun hc => absurd (hbnd _ hc) (by omega)
    have hx0 : extract (hset t.heap t.nextAddr { key := key, data := none, left := none, right := none, parent := none }) t.fuel (some r)
        = some (T, as) :=
      extract_agree t.fuel (some r) T as hx
        (fun a ha => hset_other _ _ _ _ (fun hc => hfr (hc ▸ ha)))
    have hsz : T.size < t.nextAddr + 1 := by
      have h1 := extract_length t.fuel (some r) T as hx
      have h2 := length_le_of_bound hnd hbnd
      omega
    obtain ⟨p, pn, dres, hdesc, hpmem, hppn, hcont⟩ :=
      descendAdd_attach key t.nextAddr T t.fuel
        (hset t.heap t.nextAddr { key := key, data := none, left := none, right := none, parent := none }) r as none 0 (t.nextAddr + 1)
        hx0 hnd hfr hsz
    have hpN : p ≠ t.nextAddr := fun hc => hfr (hc ▸ hpmem)
    have hh1p : hset (hset t.heap t.nextAddr { key := key, data := none, left := none, right := none, parent := none }) t.nextAddr { key := key, data := none, left := none, right := none, parent := some p } p = some pn := by
      rw [hset_other _ _ _ _ hpN]
      exact hppn
    by_cases hkp : key < pn.key
    · -- parent gets the new node on the left
      have hh2N : hset (hset (hset t.heap t.nextAddr { key := key, data := none, left := none, right := none, parent := none }) t.nextAddr { key := key, data := none, left := none, right := none, parent := some p }) p { pn with left := some t.nextAddr } t.nextAddr = some { key := key, data := none, left := none, right := none, parent := some p } := by
        rw [hset_other _ _ _ _ (Ne.symm hpN), hset_same]
      have hAdd : t.Add key false = .ok ({ BSTree.ChangeSize { heap := hset (hset (hset (hset t.heap t.nextAddr { key := key, data := none, left := none, right := none, parent := none }) t.nextAddr { key := key, data := none, left := none, right := none, parent := some p }) p { pn with left := some t.nextAddr }) t.nextAddr { key := key, data := none, left := none, right := none, parent := some p }, root_ := some r, size_ := t.size_, maxSize_ := t.maxSize_, nodeTot_ := t.nodeTot_, nextAddr := t.nextAddr + 1 } 1 with nodeTot_ := (BSTree.ChangeSize { heap := hset (hset (hset (hset t.heap t.nextAddr { key := key, data := none, left := none, right := none, parent := none }) t.nextAddr { key := key, data := none, left := none, right := none, parent := some p }) p { pn with left := some t.nextAddr }) t.nextAddr { key := key, data := none, left := none, right := none, parent := some p }, root_ := some r, size_ := t.size_, maxSize_ := t.maxSize_, nodeTot_ := t.nodeTot_, nextAddr := t.nextAddr + 1 } 1).nodeTot_ + 1 }, t.nextAddr, some (dres + 1)) := by
        simp only [BSTree.Add, hroot, Node.fresh, hdesc, hset_same, hh1p, hkp, if_true, hh2N,
          Bool.false_eq_true, if_false]
      refine ⟨_, t.nextAddr, some (dres + 1), hAdd, ?_⟩
      have ht2root : ({ BSTree.ChangeSize { heap := hset (hset (hset (hset t.heap t.nextAddr { key := key, data := none, left := none, right := none, parent := none }) t.nextAddr { key := key, data := none, left := none, right := none, parent := some p }) p { pn with left := some t.nextAddr }) t.nextAddr { key := key, data := none, left := none, right := none, parent := some p }, root_ := some r, size_ := t.size_, maxSize_ := t.maxSize_, nodeTot_ := t.nodeTot_, nextAddr := t.nextAddr + 1 } 1 with nodeTot_ := (BSTree.ChangeSize { heap := hset (hset (hset (hset t.heap t.nextAddr { key := key, data := none, left := none, right := none, parent := none }) t.nextAddr { key := key, data := none, left := none, right := none, parent := some p }) p { pn with left := some t.nextAddr }) t.nextAddr { key := key, data := none, left := none, right := none, parent := some p }, root_ := some r, size_ := t.size_, maxSize_ := t.maxSize_, nodeTot_ := t.nodeTot_, nextAddr := t.nextAddr + 1 } 1).nodeTot_ + 1 }).root_ = some r := by
        simp [ChangeSize_root]
      have ht2next : ({ BSTree.ChangeSize { heap := hset (hset (hset (hset t.heap t.nextAddr { key := key, data := none, left := none, right := none, parent := none }) t.nextAddr { key := key, data := none, left := none, right := none, parent := some p }) p { pn with left := some t.nextAddr }) t.nextAddr { key := key, data := none, left := none, right := none, parent := some p }, root_ := some r, size_ := t.size_, maxSize_ := t.maxSize_, nodeTot_ := t.nodeTot_, nextAddr := t.nextAddr + 1 } 1 with nodeTot_ := (BSTree.ChangeSize { heap := hset (hset (hset (hset t.heap t.nextAddr { key := key, data := none, left := none, right := none, parent := none }) t.nextAddr { key := key, data := none, left := none, right := none, parent := some p }) p { pn with left := some t.nextAddr }) t.nextAddr { key := key, data := none, left := none, right := none, parent := some p }, root_ := some r, size_ := t.size_, maxSize_ := t.maxSize_, nodeTot_ := t.nodeTot_, nextAddr := t.nextAddr + 1 } 1).nodeTot_ + 1 }).nextAddr = t.nextAddr + 1 := by
        simp [ChangeSize_nextAddr]
      have ht2heap : ({ BSTree.ChangeSize { heap := hset (hset (hset (hset t.heap t.nextAddr { key := key, data := none, left := none, right := none, parent := none }) t.nextAddr { key := key, data := none, left := none, right := none, parent := some p }) p { pn with left := some t.nextAddr }) t.nextAddr { key := key, data := none, left := none, right := none, parent := some p }, root_ := some r, size_ := t.size_, maxSize_ := t.maxSize_, nodeTot_ := t.nodeTot_, nextAddr := t.nextAddr + 1 } 1 with nodeTot_ := (BSTree.ChangeSize { heap := hset (hset (hset (hset t.heap t.nextAddr { key := key, data := none, left := none, right := none, parent := none }) t.nextAddr { key := key, data := none, left := none, right := none, parent := some p }) p { pn with left := some t.nextAddr }) t.nextAddr { key := key, data := none, left := none, right := none, parent := some p }, root_ := some r, size_ := t.size_, maxSize_ := t.maxSize_, nodeTot_ := t.nodeTot_, nextAddr := t.nextAddr + 1 } 1).nodeTot_ + 1 }).heap = hset (hset (hset (hset t.heap t.nextAddr { key := key, data := none, left := none, right := none, parent := none }) t.nextAddr { key := key, data := none, left := none, right := none, parent := some p }) p { pn with left := some t.nextAddr }) t.nextAddr { key := key, data := none, left := none, right := none, parent := some p } := by
        simp [ChangeSize_heap]
      have hc1 : ({ BSTree.ChangeSize { heap := hset (hset (hset (hset t.heap t.nextAddr { key := key, data := none, left := none, right := none, parent := none }) t.nextAddr { key := key, data := none, left := none, right := none, parent := some p }) p { pn with left := some t.nextAddr }) t.nextAddr { key := key, data := none, left := none, right := none, parent := some p }, root_ := some r, size_ := t.size_, maxSize_ := t.maxSize_, nodeTot_ := t.nodeTot_, nextAddr := t.nextAddr + 1 } 1 with nodeTot_ := (BSTree.ChangeSize { heap := hset (hset (hset (hset t.heap t.nextAddr { key := key, data := none, left := none, right := none, parent := none }) t.nextAddr { key := key, data := none, left := none, right := none, parent := some p }) p { pn with left := some t.nextAddr }) t.nextAddr { key := key, data := none, left := none, right := none, parent := some p }, root_ := some r, size_ := t.size_, maxSize_ := t.maxSize_, nodeTot_ := t.nodeTot_, nextAddr := t.nextAddr + 1 } 1).nodeTot_ + 1 }).heap t.nextAddr = some { key := key, data := none, left := none, right := none, parent := some p } := by
        rw [ht2heap, hset_same]
      have hc2 : ({ BSTree.ChangeSize { heap := hset (hset (hset (hset t.heap t.nextAddr { key := key, data := none, left := none, right := none, parent := none }) t.nextAddr { key := key, data := none, left := none, right := none, parent := some p }) p { pn with left := some t.nextAddr }) t.nextAddr { key := key, data := none, left := none, right := none, parent := some p }, root_ := some r, size_ := t.size_, maxSize_ := t.maxSize_, nodeTot_ := t.nodeTot_, nextAddr := t.nextAddr + 1 } 1 with nodeTot_ := (BSTree.ChangeSize { heap := hset (hset (hset (hset t.heap t.nextAddr { key := key, data := none, left := none, right := none, parent := none }) t.nextAddr { key := key, data := none, left := none, right := none, parent := some p }) p { pn with left := some t.nextAddr }) t.nextAddr { key := key, data := none, left := none, right := none, parent := some p }, root_ := some r, size_ := t.size_, maxSize_ := t.maxSize_, nodeTot_ := t.nodeTot_, nextAddr := t.nextAddr + 1 } 1).nodeTot_ + 1 }).heap p = some (if key < pn.key then { pn with left := some t.nextAddr } else { pn with right := some t.nextAddr }) := by
        rw [ht2heap, hset_other _ _ _ _ hpN, hset_same, if_pos hkp]
      have hc3 : ∀ x, x ≠ t.nextAddr → x ≠ p → ({ BSTree.ChangeSize { heap := hset (hset (hset (hset t.heap t.nextAddr { key := key, data := none, left := none, right := none, parent := none }) t.nextAddr { key := key, data := none, left := none, right := none, parent := some p }) p { pn with left := some t.nextAddr }) t.nextAddr { key := key, data := none, left := none, right := none, parent := some p }, root_ := some r, size_ := t.size_, maxSize_ := t.maxSize_, nodeTot_ := t.nodeTot_, nextAddr := t.nextAddr + 1 } 1 with nodeTot_ := (BSTree.ChangeSize { heap := hset (hset (hset (hset t.heap t.nextAddr { key := key, data := none, left := none, right := none, parent := none }) t.nextAddr { key := key, data := none, left := none, right := none, parent := some p }) p { pn with left := some t.nextAddr }) t.nextAddr { key := key, data := none, left := none, right := none, parent := some p }, root_ := some r, size_ := t.size_, maxSize_ := t.maxSize_, nodeTot_ := t.nodeTot_, nextAddr := t.nextAddr + 1 } 1).nodeTot_ + 1 }).heap x = hset t.heap t.nextAddr { key := key, data := none, left := none, right := none, parent := none } x := by
        intro x hxN hxp
        rw [ht2heap, hset_other _ _ _ _ hxN, hset_other _ _ _ _ hxp, hset_other _ _ _ _ hxN]
      obtain ⟨as2, hx2, hperm⟩ := hcont _ hc1 hc2 hc3
      refine ⟨as2, ?_, ?_, ?_⟩
      · show extract ({ BSTree.ChangeSize { heap := hset (hset (hset (hset t.heap t.nextAddr { key := key, data := none, left := none, right := none, parent := none }) t.nextAddr { key := key, data := none, left := none, right := none, parent := some p }) p { pn with left := some t.nextAddr }) t.nextAddr { key := key, data := none, left := none, right := none, parent := some p }, root_ := some r, size_ := t.size_, maxSize_ := t.maxSize_, nodeTot_ := t.nodeTot_, nextAddr := t.nextAddr + 1 } 1 with nodeTot_ := (BSTree.ChangeSize { heap := hset (hset (hset (hset t.heap t.nextAddr { key := key, data := none, left := none, right := none, parent := none }) t.nextAddr { key := key, data := none, left := none, right := none, parent := some p }) p { pn with left := some t.nextAddr }) t.nextAddr { key := key, data := none, left := none, right := none, parent := some p }, root_ := some r, size_ := t.size_, maxSize_ := t.maxSize_, nodeTot_ := t.nodeTot_, nextAddr := t.nextAddr + 1 } 1).nodeTot_ + 1 }).heap (({ BSTree.ChangeSize { heap := hset (hset (hset (hset t.heap t.nextAddr { key := key, data := none, left := none, right := none, parent := none }) t.nextAddr { key := key, data := none, left := none, right := none, parent := some p }) p { pn with left := some t.nextAddr }) t.nextAddr { key := key, data := none, left := none, right := none, parent := some p }, root_ := some r, size_ := t.size_, maxSize_ := t.maxSize_, nodeTot_ := t.nodeTot_, nextAddr := t.nextAddr + 1 } 1 with nodeTot_ := (BSTree.ChangeSize { heap := hset (hset (hset (hset t.heap t.nextAddr { key := key, data := none, left := none, right := none, parent := none }) t.nextAddr { key := key, data := none, left := none, right := none, parent := some p }) p { pn with left := some t.nextAddr }) t.nextAddr { key := key, data := none, left := none, right := none, parent := some p }, root_ := some r, size_ := t.size_, maxSize_ := t.maxSize_, nodeTot_ := t.nodeTot_, nextAddr := t.nextAddr + 1 } 1).nodeTot_ + 1 }).nextAddr + 1) ({ BSTree.ChangeSize { heap := hset (hset (hset (hset t.heap t.nextAddr { key := key, data := none, left := none, right := none, parent := none }) t.nextAddr { key := key, data := none, left := none, right := none, parent := some p }) p { pn with left := some t.nextAddr }) t.nextAddr { key := key, data := none, left := none, right := none, parent := some p }, root_ := some r, size_ := t.size_, maxSize_ := t.maxSize_, nodeTot_ := t.nodeTot_, nextAddr := t.nextAddr + 1 } 1 with nodeTot_ := (BSTree.ChangeSize { heap := hset (hset (hset (hset t.heap t.nextAddr { key := key, data := none, left := none, right := none, parent := none }) t.nextAddr { key := key, data := none, left := none, right := none, parent := some p }) p { pn with left := some t.nextAddr }) t.nextAddr { key := key, data := none, left := none, right := none, parent := some p }, root_ := some r, size_ := t.size_, maxSize_ := t.maxSize_, nodeTot_ := t.nodeTot_, nextAddr := t.nextAddr + 1 } 1).nodeTot_ + 1 }).root_ = _
        rw [ht2next, ht2root]
        exact hx2
      · have hnodup : (t.nextAddr :: as).Nodup := by
          rw [List.nodup_cons]
          exact ⟨hfr, hnd⟩
        exact (hperm.nodup_iff).mpr hnodup
      · intro a ha
        rw [ht2next]
        rcases List.mem_cons.mp (hperm.mem_iff.mp ha) with hm | hm
        · omega
        · have := hbnd a hm
          omega
    · -- parent gets the new node on the right
      have hh2N : hset (hset (hset t.heap t.nextAddr { key := key, data := none, left := none, right := none, parent := none }) t.nextAddr { key := key, data := none, left := none, right := none, parent := some p }) p { pn with right := some t.nextAddr } t.nextAddr = some { key := key, data := none, left := none, right := none, parent := some p } := by
        rw [hset_other _ _ _ _ (Ne.symm hpN), hset_same]
      have hAdd : t.Add key false = .ok ({ BSTree.ChangeSize { heap := hset (hset (hset (hset t.heap t.nextAddr { key := key, data := none, left := none, right := none, parent := none }) t.nextAddr { key := key, data := none, left := none, right := none, parent := some p }) p { pn with right := some t.nextAddr }) t.nextAddr { key := key, data := none, left := none, right := none, parent := some p }, root_ := some r, size_ := t.size_, maxSize_ := t.maxSize_, nodeTot_ := t.nodeTot_, nextAddr := t.nextAddr + 1 } 1 with nodeTot_ := (BSTree.ChangeSize { heap := hset (hset (hset (hset t.heap t.nextAddr { key := key, data := none, left := none, right := none, parent := none }) t.nextAddr { key := key, data := none, left := none, right := none, parent := some p }) p { pn with right := some t.nextAddr }) t.nextAddr { key := key, data := none, left := none, right := none, parent := some p }, root_ := some r, size_ := t.size_, maxSize_ := t.maxSize_, nodeTot_ := t.nodeTot_, nextAddr := t.nextAddr + 1 } 1).nodeTot_ + 1 }, t.nextAddr, some (dres + 1)) := by
        simp only [BSTree.Add, hroot, Node.fresh, hdesc, hset_same, hh1p, hkp, if_false, hh2N,
          Bool.false_eq_true, if_false]
      refine ⟨_, t.nextAddr, some (dres + 1), hAdd, ?_⟩
      have ht2root : ({ BSTree.ChangeSize { heap := hset (hset (hset (hset t.heap t.nextAddr { key := key, data := none, left := none, right := none, parent := none }) t.nextAddr { key := key, data := none, left := none, right := none, parent := some p }) p { pn with right := some t.nextAddr }) t.nextAddr { key := key, data := none, left := none, right := none, parent := some p }, root_ := some r, size_ := t.size_, maxSize_ := t.maxSize_, nodeTot_ := t.nodeTot_, nextAddr := t.nextAddr + 1 } 1 with nodeTot_ := (BSTree.ChangeSize { heap := hset (hset (hset (hset t.heap t.nextAddr { key := key, data := none, left := none, right := none, parent := none }) t.nextAddr { key := key, data := none, left := none, right := none, parent := some p }) p { pn with right := some t.nextAddr }) t.nextAddr { key := key, data := none, left := none, right := none, parent := some p }, root_ := some r, size_ := t.size_, maxSize_ := t.maxSize_, nodeTot_ := t.nodeTot_, nextAddr := t.nextAddr + 1 } 1).nodeTot_ + 1 }).root_ = some r := by
        simp [ChangeSize_root]
      have ht2next : ({ BSTree.ChangeSize { heap := hset (hset (hset (hset t.heap t.nextAddr { key := key, data := none, left := none, right := none, parent := none }) t.nextAddr { key := key, data := none, left := none, right := none, parent := some p }) p { pn with right := some t.nextAddr }) t.nextAddr { key := key, data := none, left := none, right := none, parent := some p }, root_ := some r, size_ := t.size_, maxSize_ := t.maxSize_, nodeTot_ := t.nodeTot_, nextAddr := t.nextAddr + 1 } 1 with nodeTot_ := (BSTree.ChangeSize { heap := hset (hset (hset (hset t.heap t.nextAddr { key := key, data := none, left := none, right := none, parent := none }) t.nextAddr { key := key, data := none, left := none, right := none, parent := some p }) p { pn with right := some t.nextAddr }) t.nextAddr { key := key, data := none, left := none, right := none, parent := some p }, root_ := some r, size_ := t.size_, maxSize_ := t.maxSize_, nodeTot_ := t.nodeTot_, nextAddr := t.nextAddr + 1 } 1).nodeTot_ + 1 }).nextAddr = t.nextAddr + 1 := by
        simp [ChangeSize_nextAddr]
      have ht2heap : ({ BSTree.ChangeSize { heap := hset (hset (hset (hset t.heap t.nextAddr { key := key, data := none, left := none, right := none, parent := none }) t.nextAddr { key := key, data := none, left := none, right := none, parent := some p }) p { pn with right := some t.nextAddr }) t.nextAddr { key := key, data := none, left := none, right := none, parent := some p }, root_ := some r, size_ := t.size_, maxSize_ := t.maxSize_, nodeTot_ := t.nodeTot_, nextAddr := t.nextAddr + 1 } 1 with nodeTot_ := (BSTree.ChangeSize { heap := hset (hset (hset (hset t.heap t.nextAddr { key := key, data := none, left := none, right := none, parent := none }) t.nextAddr { key := key, data := none, left := none, right := none, parent := some p }) p { pn with right := some t.nextAddr }) t.nextAddr { key := key, data := none, left := none, right := none, parent := some p }, root_ := some r, size_ := t.size_, maxSize_ := t.maxSize_, nodeTot_ := t.nodeTot_, nextAddr := t.nextAddr + 1 } 1).nodeTot_ + 1 }).heap = hset (hset (hset (hset t.heap t.nextAddr { key := key, data := none, left := none, right := none, parent := none }) t.nextAddr { key := key, data := none, left := none, right := none, parent := some p }) p { pn with right := some t.nextAddr }) t.nextAddr { key := key, data := none, left := none, right := none, parent := some p } := by
        simp [ChangeSize_heap]
      have hc1 : ({ BSTree.ChangeSize { heap := hset (hset (hset (hset t.heap t.nextAddr { key := key, data := none, left := none, right := none, parent := none }) t.nextAddr { key := key, data := none, left := none, right := none, parent := some p }) p { pn with right := some t.nextAddr }) t.nextAddr { key := key, data := none, left := none, right := none, parent := some p }, root_ := some r, size_ := t.size_, maxSize_ := t.maxSize_, nodeTot_ := t.nodeTot_, nextAddr := t.nextAddr + 1 } 1 with nodeTot_ := (BSTree.ChangeSize { heap := hset (hset (hset (hset t.heap t.nextAddr { key := key, data := none, left := none, right := none, parent := none }) t.nextAddr { key := key, data := none, left := none, right := none, parent := some p }) p { pn with right := some t.nextAddr }) t.nextAddr { key := key, data := none, left := none, right := none, parent := some p }, root_ := some r, size_ := t.size_, maxSize_ := t.maxSize_, nodeTot_ := t.nodeTot_, nextAddr := t.nextAddr + 1 } 1).nodeTot_ + 1 }).heap t.nextAddr = some { key := key, data := none, left := none, right := none, parent := some p } := by
        rw [ht2heap, hset_same]
      have hc2 : ({ BSTree.ChangeSize { heap := hset (hset (hset (hset t.heap t.nextAddr { key := key, data := none, left := none, right := none, parent := none }) t.nextAddr { key := key, data := none, left := none, right := none, parent := some p }) p { pn with right := some t.nextAddr }) t.nextAddr { key := key, data := none, left := none, right := none, parent := some p }, root_ := some r, size_ := t.size_, maxSize_ := t.maxSize_, nodeTot_ := t.nodeTot_, nextAddr := t.nextAddr + 1 } 1 with nodeTot_ := (BSTree.ChangeSize { heap := hset (hset (hset (hset t.heap t.nextAddr { key := key, data := none, left := none, right := none, parent := none }) t.nextAddr { key := key, data := none, left := none, right := none, parent := some p }) p { pn with right := some t.nextAddr }) t.nextAddr { key := key, data := none, left := none, right := none, parent := some p }, root_ := some r, size_ := t.size_, maxSize_ := t.maxSize_, nodeTot_ := t.nodeTot_, nextAddr := t.nextAddr + 1 } 1).nodeTot_ + 1 }).heap p = some (if key < pn.key then { pn with left := some t.nextAddr } else { pn with right := some t.nextAddr }) := by
        rw [ht2heap, hset_other _ _ _ _ hpN, hset_same, if_neg hkp]
      have hc3 : ∀ x, x ≠ t.nextAddr → x ≠ p → ({ BSTree.ChangeSize { heap := hset (hset (hset (hset t.heap t.nextAddr { key := key, data := none, left := none, right := none, parent := none }) t.nextAddr { key := key, data := none, left := none, right := none, parent := some p }) p { pn with right := some t.nextAddr }) t.nextAddr { key := key, data := none, left := none, right := none, parent := some p }, root_ := some r, size_ := t.size_, maxSize_ := t.maxSize_, nodeTot_ := t.nodeTot_, nextAddr := t.nextAddr + 1 } 1 with nodeTot_ := (BSTree.ChangeSize { heap := hset (hset (hset (hset t.heap t.nextAddr { key := key, data := none, left := none, right := none, parent := none }) t.nextAddr { key := key, data := none, left := none, right := none, parent := some p }) p { pn with right := some t.nextAddr }) t.nextAddr { key := key, data := none, left := none, right := none, parent := some p }, root_ := some r, size_ := t.size_, maxSize_ := t.maxSize_, nodeTot_ := t.nodeTot_, nextAddr := t.nextAddr + 1 } 1).nodeTot_ + 1 }).heap x = hset t.heap t.nextAddr { key := key, data := none, left := none, right := none, parent := none } x := by
        intro x hxN hxp
        rw [ht2heap, hset_other _ _ _ _ hxN, hset_other _ _ _ _ hxp, hset_other _ _ _ _ hxN]
      obtain ⟨as2, hx2, hperm⟩ := hcont _ hc1 hc2 hc3
      refine ⟨as2, ?_, ?_, ?_⟩
      · show extract ({ BSTree.ChangeSize { heap := hset (hset (hset (hset t.heap t.nextAddr { key := key, data := none, left := none, right := none, parent := none }) t.nextAddr { key := key, data := none, left := none, right := none, parent := some p }) p { pn with right := some t.nextAddr }) t.nextAddr { key := key, data := none, left := none, right := none, parent := some p }, root_ := some r, size_ := t.size_, maxSize_ := t.maxSize_, nodeTot_ := t.nodeTot_, nextAddr := t.nextAddr + 1 } 1 with nodeTot_ := (BSTree.ChangeSize { heap := hset (hset (hset (hset t.heap t.nextAddr { key := key, data := none, left := none, right := none, parent := none }) t.nextAddr { key := key, data := none, left := none, right := none, parent := some p }) p { pn with right := some t.nextAddr }) t.nextAddr { key := key, data := none, left := none, right := none, parent := some p }, root_ := some r, size_ := t.size_, maxSize_ := t.maxSize_, nodeTot_ := t.nodeTot_, nextAddr := t.nextAddr + 1 } 1).nodeTot_ + 1 }).heap (({ BSTree.ChangeSize { heap := hset (hset (hset (hset t.heap t.nextAddr { key := key, data := none, left := none, right := none, parent := none }) t.nextAddr { key := key, data := none, left := none, right := none, parent := some p }) p { pn with right := some t.nextAddr }) t.nextAddr { key := key, data := none, left := none, right := none, parent := some p }, root_ := some r, size_ := t.size_, maxSize_ := t.maxSize_, nodeTot_ := t.nodeTot_, nextAddr := t.nextAddr + 1 } 1 with nodeTot_ := (BSTree.ChangeSize { heap := hset (hset (hset (hset t.heap t.nextAddr { key := key, data := none, left := none, right := none, parent := none }) t.nextAddr { key := key, data := none, left := none, right := none, parent := some p }) p { pn with right := some t.nextAddr }) t.nextAddr { key := key, data := none, left := none, right := none, parent := some p }, root_ := some r, size_ := t.size_, maxSize_ := t.maxSize_, nodeTot_ := t.nodeTot_, nextAddr := t.nextAddr + 1 } 1).nodeTot_ + 1 }).nextAddr + 1) ({ BSTree.ChangeSize { heap := hset (hset (hset (hset t.heap t.nextAddr { key := key, data := none, left := none, right := none, parent := none }) t.nextAddr { key := key, data := none, left := none, right := none, parent := some p }) p { pn with right := some t.nextAddr }) t.nextAddr { key := key, data := none, left := none, right := none, parent := some p }, root_ := some r, size_ := t.size_, maxSize_ := t.maxSize_, nodeTot_ := t.nodeTot_, nextAddr := t.nextAddr + 1 } 1 with nodeTot_ := (BSTree.ChangeSize { heap := hset (hset (hset (hset t.heap t.nextAddr { key := key, data := none, left := none, right := none, parent := none }) t.nextAddr { key := key, data := none, left := none, right := none, parent := some p }) p { pn with right := some t.nextAddr }) t.nextAddr { key := key, data := none, left := none, right := none, parent := some p }, root_ := some r, size_ := t.size_, maxSize_ := t.maxSize_, nodeTot_ := t.nodeTot_, nextAddr := t.nextAddr + 1 } 1).nodeTot_ + 1 }).root_ = _
        rw [ht2next, ht2root]
        exact hx2
      · have hnodup : (t.nextAddr :: as).Nodup := by
          rw [List.nodup_cons]
          exact ⟨hfr, hnd⟩
        exact (hperm.nodup_iff).mpr hnodup
      · intro a ha
        rw [ht2next]
        rcases List.mem_cons.mp (hperm.mem_iff.mp ha) with hm | hm
        · omega
        · have := hbnd a hm
          omega

theorem AddAll_WF : ∀ (ks : List S_T) (t : BSTree) (T : ATree) (as : List Nat),
    WF t T as → T.isBST = true → ks.Nodup →
    (∀ k ∈ ks, k ∉ T.inorder) →
    ∃ t' T' as', t.AddAll ks = .ok t' ∧ WF t' T' as' ∧ T'.isBST = true ∧
      T'.inorder.Perm (ks ++ T.inorder) := by
  intro ks
  induction ks with
  | nil =>
    intro t T as hwf hbst _ _
    exact ⟨t, T, as, rfl, hwf, hbst, by simp⟩
  | cons k ks ih =>
    intro t T as hwf hbst hnd hmem
    obtain ⟨t1, aN, d, hAdd, as1, hwf1⟩ := Add_WF k hwf
    rw [List.nodup_cons] at hnd
    have hkT : k ∉ T.inorder := hmem k (List.mem_cons_self k _)
    have hbst1 : (insertA k T).isBST = true := isBST_insertA k T hbst hkT
    have hmem1 : ∀ k' ∈ ks, k' ∉ (insertA k T).inorder := by
      intro k' hk' hc
      rcases mem_inorder_insertA.mp hc with rfl | hc2
      · exact hnd.1 hk'
      · exact hmem k' (List.mem_cons_of_mem _ hk') hc2
    obtain ⟨t', T', as', hAll, hwf', hbst', hperm'⟩ :=
      ih t1 (insertA k T) as1 hwf1 hbst1 hnd.2 hmem1
    refine ⟨t', T', as', ?_, hwf', hbst', ?_⟩
    · show BSTree.AddAll t (k :: ks) = .ok t'
      simp only [BSTree.AddAll, hAdd]
      exact hAll
    · have h1 : (ks ++ (insertA k T).inorder).Perm (ks ++ (k :: T.inorder)) :=
        (inorder_insertA k T).append_left ks
      have h2 : (ks ++ k :: T.inorder).Perm (k :: (ks ++ T.inorder)) := List.perm_middle
      exact hperm'.trans (h1.trans h2)

theorem newBSTree_WF : WF BSTree.new ATree.leaf [] := by
  refine ⟨?_, by simp, by simp⟩
  show extract BSTree.new.heap (BSTree.new.nextAddr + 1) BSTree.new.root_ = _
  rfl

theorem FindRecurse_succ_none (h : Heap) (key : S_T) (F : Nat) :
    BSTree.FindRecurse h key (F + 1) none = .ok none := rfl

theorem FindRecurse_succ_some (h : Heap) (key : S_T) (F : Nat) (a : Nat) :
    BSTree.FindRecurse h key (F + 1) (some a) =
      match h a with
      | none => .error .wildPtr
      | some n =>
        if n.key = key then .ok (some a)
        else if key < n.key then BSTree.FindRecurse h key F n.left
        else if n.key < key then BSTree.FindRecurse h key F n.right
        else .ok none := rfl

theorem FindRecurse_correct : ∀ (T : ATree) (F : Nat) (h : Heap) (ro : Option Nat)
    (as : List Nat) (key : S_T) (fuelN : Nat),
    extract h F ro = some (T, as) → T.isBST = true → T.size < fuelN →
    (key ∈ T.inorder → ∃ a n, BSTree.FindRecurse h key fuelN ro = .ok (some a) ∧
      a ∈ as ∧ h a = some n ∧ n.key = key) ∧
    (key ∉ T.inorder → BSTree.FindRecurse h key fuelN ro = .ok none) := by
  intro T
  induction T with
  | leaf =>
    intro F h ro as key fuelN hx _ hsz
    cases ro with
    | none =>
      cases fuelN with
      | zero => exact absurd hsz (by simp)
      | succ fz =>
        refine ⟨fun hmem => absurd hmem (by simp [ATree.inorder]), fun _ => ?_⟩
        exact FindRecurse_succ_none h key fz
    | some a =>
      obtain ⟨Fm, n, l, al, rt, ar, hF, hh, hl, hr, hT, has⟩ := extract_some_inv hx
      exact absurd hT (by simp)
  | node l k rt ihl ihr =>
    intro F h ro as key fuelN hx hbst hsz
    cases ro with
    | none =>
      rw [extract_none] at hx
      simp only [Option.some.injEq, Prod.mk.injEq] at hx
      exact absurd hx.1.symm (by simp)
    | some a =>
      obtain ⟨Fm, n, l', al, rt', ar, hF, hh, hl, hr, hT, has⟩ := extract_some_inv hx
      subst hF
      injection hT with hTl hTk hTr
      subst hTl
      subst hTr
      subst hTk
      subst has
      simp only [ATree.isBST, Bool.and_eq_true, List.all_eq_true, decide_eq_true_eq] at hbst
      obtain ⟨⟨⟨hbl, hbr⟩, hall⟩, har⟩ := hbst
      cases fuelN with
      | zero =>
        exfalso
        simp only [ATree.size] at hsz
        omega
      | succ fz =>
        rw [FindRecurse_succ_some]
        simp only [hh]
        by_cases heq : n.key = key
        · rw [if_pos heq]
          constructor
          · intro _
            exact ⟨a, n, rfl, List.mem_cons_self a _, hh, heq⟩
          · intro hmem
            exfalso
            apply hmem
            simp only [ATree.inorder, List.mem_append, List.mem_cons]
            right
            left
            exact heq.symm
        · rw [if_neg heq]
          by_cases hlt : key < n.key
          · rw [if_pos hlt]
            have hszl : l.size < fz := by
              simp only [ATree.size] at hsz
              omega
            have ihl2 := ihl Fm h n.left al key fz hl hbl hszl
            constructor
            · intro hmem
              have hmeml : key ∈ l.inorder := by
                simp only [ATree.inorder, List.mem_append, List.mem_cons] at hmem
                rcases hmem with hm | hm | hm
                · exact hm
                · exact absurd hm.symm heq
                · exact absurd (har key hm) (lt_asymm hlt)
              obtain ⟨a2, n2, hfind, hmem2, hh2, hkey2⟩ := ihl2.1 hmeml
              exact ⟨a2, n2, hfind, List.mem_cons_of_mem _ (List.mem_append_left _ hmem2),
                hh2, hkey2⟩
            · intro hmem
              have hmeml : key ∉ l.inorder := fun hc =>
                hmem (by
                  simp only [ATree.inorder, List.mem_append]
                  exact Or.inl hc)
              exact ihl2.2 hmeml
          · rw [if_neg hlt]
            have hgt : n.key < key := lt_of_le_of_ne (le_of_not_lt hlt) heq
            rw [if_pos hgt]
            have hszr : rt.size < fz := by
              simp only [ATree.size] at hsz
              omega
            have ihr2 := ihr Fm h n.right ar key fz hr hbr hszr
            constructor
            · intro hmem
              have hmemr : key ∈ rt.inorder := by
                simp only [ATree.inorder, List.mem_append, List.mem_cons] at hmem
                rcases hmem with hm | hm | hm
                · exact absurd (hall key hm) hlt
                · exact absurd hm.symm heq
                · exact hm
              obtain ⟨a2, n2, hfind, hmem2, hh2, hkey2⟩ := ihr2.1 hmemr
              exact ⟨a2, n2, hfind, List.mem_cons_of_mem _ (List.mem_append_right _ hmem2),
                hh2, hkey2⟩
            · intro hmem
              have hmemr : key ∉ rt.inorder := fun hc =>
                hmem (by
                  simp only [ATree.inorder, List.mem_append, List.mem_cons]
                  exact Or.inr (Or.inr hc))
              exact ihr2.2 hmemr

/-- C1: the claim states that Add with a key already present fails with a
duplicate-key condition and leaves the tree unmodified.  Evaluating the code
at the failing input (insert 5 into an empty tree, then Add(5) again) shows
the opposite: the descent loop of `BSTree::Add` compares only with `<`, so
the duplicate is attached as the right child of the existing node, the node
total rises to 2, two nodes with key 5 become reachable, and `size_`
becomes 1 — the insertion is not rejected and the tree is modified. -/
theorem c1_duplicate_add_inserts :
    (BSTree.AddAll BSTree.new [5, 5]).map
      (fun t => (t.nodeTot_, t.size_, countReachable t,
                 (t.heap 0).map Node.right, (t.heap 1).map Node.key))
      = .ok (2, 1, some 2, some (some 1), some 5) := by rfl

/-- C2: the claim states that after every successful Insert the `count`
(`size_`) equals the number of nodes reachable from the root, already for
the very first insertion.  Evaluating `BSTree::Add` on an empty tree shows
the empty-tree branch returns without calling `ChangeSize`, so `size_` is
still 0 while one node is reachable. -/
theorem c2_first_insert_count_zero :
    (BSTree.Add BSTree.new 7 false).map (fun x => (x.1.size_, countReachable x.1))
      = .ok (0, some 1) := by rfl

/-- C3: the claim states that after a successful Delete(k), Find(k) is
absent and Size() is one less than before.  Evaluating the code on the tree
built from [3,1,2] and deleting 1 (a one-child interior node): before the
delete `size_` is 2, DeleteKey returns true and Find(1) then yields none,
but `size_` is still 2 afterwards, because the deletion path never calls
`ChangeSize` — Size() does not decrease. -/
theorem c3_delete_size_unchanged :
    ((BSTree.AddAll BSTree.new [3, 1, 2]).bind (fun t =>
      (t.DeleteKey 1).bind (fun p =>
        (p.1.Find 1).map (fun f => (t.size_, p.2, p.1.size_, f)))))
      = .ok (2, true, 2, none) := by rfl

/-- C4: the claim states that deleting the root (zero or one child) avoids
dereferencing the root's absent parent and re-points `root_` to the child.
Evaluating the spec scenario — insert [1,2,3] (MaxDepth 2), delete 1 — the
model faults with a null-pointer dereference: `BSTree::DeleteNode` reads
`node->parent->left` without checking `node->parent`, which is null at the
root, and `DeleteKey` discards the returned successor without ever
updating `root_`. -/
theorem c4_root_delete_null_parent :
    (BSTree.AddAll BSTree.new [1, 2, 3]).map
      (fun t => (t.MaxDepth, (t.DeleteKey 1).map Prod.snd))
      = .ok (.ok 2, .error .nullPtr) := by rfl

/-- C5: the claim states that when a node with a single child is removed
the child's parent back-reference is re-pointed to the removed node's
former parent.  Evaluating the code on the tree [3,1,2] and deleting 1
(whose only child holds 2 at address 2): after the delete, node 2's parent
field still holds address 1 — the freed node — while address 1 is no
longer allocated; the code never touches `successor->parent`, so parent
consistency is violated. -/
theorem c5_successor_parent_dangling :
    ((BSTree.AddAll BSTree.new [3, 1, 2]).bind (fun t => t.DeleteKey 1)).map
      (fun p => ((p.1.heap 2).map Node.parent, (p.1.heap 1).isSome))
      = .ok (some (some 1), false) := by rfl

/-- C7: the claim states that teardown releases every reachable node
exactly once in post-order regardless of payload contents.  Evaluating
`BSTree::DeleteRecursive` on `treeNP` (one reachable node whose `data` is
null) frees nothing, and on `treeNP2` (a root with payload whose child has
null `data`) frees only the root, leaking the child, because the guard
`if (node && node->data)` skips any node whose payload pointer is null. -/
theorem c7_teardown_skips_null_payload :
    treeNP.Destroy = .ok [] ∧ countReachable treeNP = some 1 ∧
    treeNP2.Destroy = .ok [0] ∧ countReachable treeNP2 = some 2 :=
  ⟨rfl, rfl, rfl, rfl⟩

/-- C6: for every sequence of pairwise-distinct keys inserted into an
initially empty tree, every Add succeeds and the in-order traversal of the
tree extracted from the resulting pointer structure is strictly increasing
and is a permutation of the inserted keys (the BST ordering invariant). -/
theorem c6_insert_inorder_sorted (keys : List S_T) (hnd : keys.Nodup) :
    ∃ t T as, BSTree.AddAll BSTree.new keys = .ok t ∧
      extract t.heap t.fuel t.root_ = some (T, as) ∧
      List.Chain' (fun a b : S_T => a < b) T.inorder ∧ T.inorder.Perm keys := by
  obtain ⟨t, T, as, hAll, hwf, hbst, hperm⟩ :=
    AddAll_WF keys BSTree.new ATree.leaf [] newBSTree_WF rfl hnd
      (by simp [ATree.inorder])
  obtain ⟨hx, -, -⟩ := hwf
  refine ⟨t, T, as, hAll, hx, chain_of_isBST T hbst, ?_⟩
  simpa [ATree.inorder] using hperm

/-- Witness for C6 at the concrete key sequence [2, 1, 3]. -/
theorem c6_insert_inorder_sorted_witness :
    ([2, 1, 3] : List S_T).Nodup ∧
    (∃ t T as, BSTree.AddAll BSTree.new [2, 1, 3] = .ok t ∧
      extract t.heap t.fuel t.root_ = some (T, as) ∧
      List.Chain' (fun a b : S_T => a < b) T.inorder ∧ T.inorder.Perm [2, 1, 3]) :=
  ⟨by decide, c6_insert_inorder_sorted [2, 1, 3] (by decide)⟩

/-- C8: for every well-formed tree state whose extracted shape satisfies
the BST ordering invariant, Find performs the BST descent of
`BSTree::FindRecurse` and returns the address of a node holding `key` for
every key present in the tree, and returns absent (`ok none`, not an
error) for every key not present. -/
theorem c8_find_bst_descent (t : BSTree) (T : ATree) (as : List Nat) (key : S_T)
    (hwf : WF t T as) (hbst : T.isBST = true) :
    (key ∈ T.inorder → ∃ a n, t.Find key = .ok (some a) ∧ a ∈ as ∧
      t.heap a = some n ∧ n.key = key) ∧
    (key ∉ T.inorder → t.Find key = .ok none) := by
  obtain ⟨hx, hnd, hbnd⟩ := hwf
  have hsz : T.size < t.fuel := by
    have h1 := extract_length t.fuel t.root_ T as hx
    have h2 := length_le_of_bound hnd hbnd
    show T.size < t.nextAddr + 1
    omega
  exact FindRecurse_correct T t.fuel t.heap t.root_ as key t.fuel hx hbst hsz

/-- Witness for C8 on the concrete tree built from [2, 1, 3] at key 3. -/
theorem c8_find_bst_descent_witness :
    WF treeW treeWT [0, 1, 2] ∧ treeWT.isBST = true ∧
    (((3 : S_T) ∈ treeWT.inorder → ∃ a n, treeW.Find 3 = .ok (some a) ∧
        a ∈ [0, 1, 2] ∧ treeW.heap a = some n ∧ n.key = 3) ∧
      ((3 : S_T) ∉ treeWT.inorder → treeW.Find 3 = .ok none)) :=
  ⟨⟨by rfl, by decide, by decide⟩, by decide,
    c8_find_bst_descent treeW treeWT [0, 1, 2] 3 ⟨by rfl, by decide, by decide⟩
      (by decide)⟩

/-- C9: for every well-formed BST tree state and key not present in it,
DeleteKey returns false and hands back the state unchanged, so Size(), the
Print traversal order and MaxDepth() are all identical before and after
the call. -/
theorem c9_delete_absent_noop (t : BSTree) (T : ATree) (as : List Nat) (key : S_T)
    (hwf : WF t T as) (hbst : T.isBST = true) (habs : key ∉ T.inorder) :
    t.DeleteKey key = .ok (t, false) ∧
    (t.DeleteKey key).map (fun p => p.1.size_) = .ok t.size_ ∧
    (t.DeleteKey key).map (fun p => p.1.Traverse) = .ok t.Traverse ∧
    (t.DeleteKey key).map (fun p => p.1.MaxDepth) = .ok t.MaxDepth := by
  obtain ⟨hx, hnd, hbnd⟩ := hwf
  have hsz : T.size < t.fuel := by
    have h1 := extract_length t.fuel t.root_ T as hx
    have h2 := length_le_of_bound hnd hbnd
    show T.size < t.nextAddr + 1
    omega
  have hfind : t.Find key = .ok none :=
    (FindRecurse_correct T t.fuel t.heap t.root_ as key t.fuel hx hbst hsz).2 habs
  have h1 : t.DeleteKey key = .ok (t, false) := by
    simp only [BSTree.DeleteKey, hfind]
  refine ⟨h1, ?_, ?_, ?_⟩ <;> rw [h1] <;> rfl

/-- Witness for C9 on the concrete tree built from [2, 1, 3] at the
absent key 9. -/
theorem c9_delete_absent_noop_witness :
    WF treeW treeWT [0, 1, 2] ∧ treeWT.isBST = true ∧ (9 : S_T) ∉ treeWT.inorder ∧
    treeW.DeleteKey 9 = .ok (treeW, false) :=
  ⟨⟨by rfl, by decide, by decide⟩, by decide, by decide,
    (c9_delete_absent_noop treeW treeWT [0, 1, 2] 9 ⟨by rfl, by decide, by decide⟩
      (by decide) (by decide)).1⟩

/-- C10: `BSTree::Add` writes through the depth out-parameter without a
null check on the empty-tree path, so Add on an empty tree with a null
depth pointer faults with a null-pointer write; on a non-empty tree the
write is guarded by `if (depth)`, so Add with a null depth pointer behaves
exactly like Add with a valid pointer except that no depth is written. -/
theorem c10_add_depth_pointer (t : BSTree) (key : S_T) :
    (t.root_ = none → t.Add key true = .error .nullPtr) ∧
    (∀ r, t.root_ = some r →
      t.Add key true = (t.Add key false).map
        (fun x => (x.1, x.2.1, (none : Option Int)))) := by
  constructor
  · intro h
    simp [BSTree.Add, h]
  · intro r hroot
    simp only [BSTree.Add, hroot]
    cases hd : descendAdd (hset t.heap t.nextAddr (Node.fresh key)) key
        (t.nextAddr + 1) (some r) none 0 with
    | error e => rfl
    | ok v =>
      obtain ⟨cand, d0⟩ := v
      cases cand with
      | none => rfl
      | some p =>
        simp only [hset_same]
        cases hv2 : hset (hset t.heap t.nextAddr (Node.fresh key)) t.nextAddr
            { Node.fresh key with parent := some p } p with
        | none => rfl
        | some pn =>
          by_cases hkp : key < pn.key
          · simp only [if_pos hkp]
            cases hv3 : hset (hset (hset t.heap t.nextAddr (Node.fresh key))
                t.nextAddr { Node.fresh key with parent := some p }) p
                { pn with left := some t.nextAddr } t.nextAddr with
            | none => rfl
            | some nd2 => rfl
          · simp only [if_neg hkp]
            cases hv3 : hset (hset (hset t.heap t.nextAddr (Node.fresh key))
                t.nextAddr { Node.fresh key with parent := some p }) p
                { pn with right := some t.nextAddr } t.nextAddr with
            | none => rfl
            | some nd2 => rfl

/-- Witness for C10: the empty tree faults at key 5; the concrete
three-node tree completes for key 9 with no depth written. -/
theorem c10_add_depth_pointer_witness :
    BSTree.Add BSTree.new 5 true = .error .nullPtr ∧
    treeW.Add 9 true = (treeW.Add 9 false).map
      (fun x => (x.1, x.2.1, (none : Option Int))) :=
  ⟨(c10_add_depth_pointer BSTree.new 5).1 rfl,
   (c10_add_depth_pointer treeW 9).2 0 (by rfl)⟩
